import Mathlib

/-!
Verification of the logical-clocks VM simulation (`vm_simulation.py`).

We shallowly embed the `VirtualMachine` class: its state, the
message-processing rule (`process_message`), the event-loop tick body
(`VirtualMachine.run`, final revision with threshold-based random event
selection), the listener's per-connection handling (`server_loop` body),
logging (`log_event`) and shutdown (`stop`).  Python integers are `Int`,
probabilities and random draws are `ℚ`, the inbound queue is a `List Int`
(FIFO: pushed at the back, popped at the front), and the log is a list of
structured entries.  Network sends are recorded in an `outbox`; a send
failure oracle (`Option String`, the error text) models the exception path
of `send_message`.
-/

namespace VMSim

/-- One line of the per-VM log, as structured data: the event type string,
the logical-clock value at the moment of logging, the queue length at the
moment of logging, and the free-text details.  (`elapsed` wall-clock time is
real time and is supplied only at rendering.) -/
structure LogEntry where
  event_type : String
  clock_snapshot : Int
  queue_len : Nat
  details : String
deriving Repr, DecidableEq

/-- The state of one `VirtualMachine`: `vm_id`, `logical_clock`, the peer id
list, the internal-event probability, the `running` flag, whether the server
socket and the log file have been closed, the inbound queue, the log written
so far, and the outbox of successfully sent `(target, timestamp)` pairs. -/
structure VMState where
  vm_id : Nat
  logical_clock : Int
  peers : List Nat
  internal_event_prob : ℚ
  running : Bool
  socket_closed : Bool
  log_file_closed : Bool
  queue : List Int
  log : List LogEntry
  outbox : List (Nat × Int)
deriving Repr, DecidableEq

/-- `VirtualMachine.__init__`: clock 0, running, socket and log file open,
empty queue and log.  (The `Init` log line is commented out in the source.) -/
def initState (vm_id : Nat) (peers : List Nat) (internal_prob : ℚ) : VMState :=
  { vm_id := vm_id
    logical_clock := 0
    peers := peers
    internal_event_prob := internal_prob
    running := true
    socket_closed := false
    log_file_closed := false
    queue := []
    log := []
    outbox := [] }

/-- `VirtualMachine.log_event`: if the log file is closed, return without
doing anything; otherwise append one entry snapshotting the current clock
and queue length. -/
def log_event (s : VMState) (event_type details : String) : VMState :=
  if s.log_file_closed then s
  else { s with log := s.log ++
          [{ event_type := event_type
             clock_snapshot := s.logical_clock
             queue_len := s.queue.length
             details := details }] }

/-- Rendering of one log line, the f-string of `log_event`:
`f"{elapsed:.3f}\t{event_type}\tLogical Clock: {clock}\tQueue Length: {qlen}\t{details}\n"`.
The already-formatted elapsed-seconds field is passed as a string. -/
def render_log_line (elapsed : String) (e : LogEntry) : String :=
  elapsed ++ "\t" ++ e.event_type ++ "\tLogical Clock: " ++
    toString e.clock_snapshot ++ "\tQueue Length: " ++ toString e.queue_len ++
    "\t" ++ e.details ++ "\n"

/-- `VirtualMachine.process_message`: set
`logical_clock = max(logical_clock, received_timestamp) + 1`, then log a
`"Receive"` event with details `"From Network"`. -/
def process_message (s : VMState) (received_timestamp : Int) : VMState :=
  log_event { s with logical_clock := max s.logical_clock received_timestamp + 1 }
    "Receive" "From Network"

/-- `VirtualMachine.send_message`: on success record the `(target, timestamp)`
pair in the outbox; on failure (`fail = some e`, the exception text) log a
`"Send Error"` entry and send nothing. -/
def send_message (s : VMState) (target_vm : Nat) (timestamp : Int)
    (fail : Option String) : VMState :=
  match fail with
  | none => { s with outbox := s.outbox ++ [(target_vm, timestamp)] }
  | some e => log_event s "Send Error" ("To VM " ++ toString target_vm ++ ": " ++ e)

/-- The local-event part of one iteration of `VirtualMachine.run` (queue
empty): draw `r`, compare against the cumulative thresholds built from
`p_internal = internal_event_prob` and `p_send_each = (1 - p_internal) / 3`,
and perform the selected event.  `fails` gives, per target vm id, whether a
send to it fails and with what error text. -/
def local_event (s : VMState) (r : ℚ) (fails : Nat → Option String) : VMState :=
  let p_internal := s.internal_event_prob
  let p_send_each := (1 - p_internal) / 3
  if r < p_internal then
    log_event { s with logical_clock := s.logical_clock + 1 }
      "Internal" "No external communication"
  else if r < p_internal + p_send_each then
    match s.peers with
    | p0 :: _ =>
        let s1 := { s with logical_clock := s.logical_clock + 1 }
        let s2 := send_message s1 p0 s1.logical_clock (fails p0)
        log_event s2 "Send" ("To VM " ++ toString p0)
    | [] =>
        log_event { s with logical_clock := s.logical_clock + 1 }
          "Internal" "Fallback event"
  else if r < p_internal + 2 * p_send_each then
    match s.peers with
    | _ :: p1 :: _ =>
        let s1 := { s with logical_clock := s.logical_clock + 1 }
        let s2 := send_message s1 p1 s1.logical_clock (fails p1)
        log_event s2 "Send" ("To VM " ++ toString p1)
    | _ =>
        log_event { s with logical_clock := s.logical_clock + 1 }
          "Internal" "Fallback event"
  else
    let s1 := { s with logical_clock := s.logical_clock + 1 }
    let ts := s1.logical_clock
    let s2 := s.peers.foldl (fun acc peer => send_message acc peer ts (fails peer)) s1
    log_event s2 "Send All" ("To VMs " ++ toString s.peers)

/-- One iteration of the `while` body of `VirtualMachine.run` (after the
tick sleep): if the inbound queue is non-empty, pop exactly one timestamp,
process it, and `continue` (skip the random event); otherwise perform the
random local event selected by the draw `r`. -/
def tick (s : VMState) (r : ℚ) (fails : Nat → Option String) : VMState :=
  match s.queue with
  | v :: rest => process_message { s with queue := rest } v
  | [] => local_event s r fails

/-- Python `int(str)` on a decoded payload: optional surrounding ASCII
whitespace, an optional `+`/`-` sign, then a non-empty run of decimal
digits.  (Digit-group underscores, accepted by Python, are not modelled;
no claim depends on them.) -/
def pythonInt (str : String) : Option Int :=
  let chars := ((str.toList.dropWhile Char.isWhitespace).reverse.dropWhile
      Char.isWhitespace).reverse
  let digitsVal : List Char → Option Int := fun ds =>
    if ds ≠ [] ∧ ds.all Char.isDigit then
      some (ds.foldl (fun a c => 10 * a + (c.toNat - 48)) 0)
    else none
  match chars with
  | '-' :: rest => (digitsVal rest).map (fun n => -n)
  | '+' :: rest => digitsVal rest
  | rest => digitsVal rest

/-- The per-connection body of `VirtualMachine.server_loop`: if the payload
is non-empty, try `int(data.decode())`; on success put the value at the back
of the inbound queue, on `ValueError` do nothing; then close the connection.
No log entry is ever written. -/
def server_step (s : VMState) (payload : String) : VMState :=
  if payload = "" then s
  else
    match pythonInt payload with
    | some v => { s with queue := s.queue ++ [v] }
    | none => s

/-- `VirtualMachine.stop`: set `running = False`, close the server socket,
close the log file.  (Closing an already-closed Python socket or file is a
no-op.) -/
def stop (s : VMState) : VMState :=
  { s with running := false, socket_closed := true, log_file_closed := true }

/-- Anything that can happen to a VM's state in our model: one event-loop
tick, one inbound connection handled by the listener, or a `stop` call. -/
inductive Action where
  | tick (r : ℚ) (fails : Nat → Option String)
  | recv (payload : String)
  | halt
deriving Inhabited

/-- Apply one action to the state. -/
def applyAction (s : VMState) : Action → VMState
  | Action.tick r fails => tick s r fails
  | Action.recv payload => server_step s payload
  | Action.halt => stop s

/-- A whole run: the initial state followed by a list of actions. -/
def runActions (s : VMState) (acts : List Action) : VMState :=
  acts.foldl applyAction s

/-- The clock-snapshot sequence of the log. -/
def snapshots (s : VMState) : List Int :=
  s.log.map (fun e => e.clock_snapshot)

/-- The clock/log invariant: the clock is non-negative, the snapshot
sequence is non-decreasing, and every snapshot is at most the current
clock. -/
def Inv (s : VMState) : Prop :=
  0 ≤ s.logical_clock ∧ (snapshots s).Chain' (· ≤ ·) ∧
    ∀ e ∈ s.log, e.clock_snapshot ≤ s.logical_clock

/-- The event-type strings the code can actually write. -/
def writtenEventTypes : List String :=
  ["Internal", "Receive", "Send", "Send All", "Send Error"]

/-- All event types in a state's log are from `writtenEventTypes`. -/
def TypesOk (s : VMState) : Prop :=
  ∀ e ∈ s.log, e.event_type ∈ writtenEventTypes

end VMSim

namespace VMSim

/-! ### Helper lemmas -/

theorem log_event_clock (s : VMState) (t d : String) :
    (log_event s t d).logical_clock = s.logical_clock := by
  unfold log_event; split <;> rfl

theorem send_message_clock (s : VMState) (t : Nat) (ts : Int) (fl : Option String) :
    (send_message s t ts fl).logical_clock = s.logical_clock := by
  cases fl <;> simp [send_message, log_event_clock]

theorem foldl_send_clock (ps : List Nat) (s : VMState) (ts : Int)
    (f : Nat → Option String) :
    (ps.foldl (fun acc peer => send_message acc peer ts (f peer)) s).logical_clock =
      s.logical_clock := by
  induction ps generalizing s with
  | nil => rfl
  | cons p t ih => rw [List.foldl_cons, ih, send_message_clock]

theorem foldl_send_success (ps : List Nat) (s : VMState) (ts : Int)
    (f : Nat → Option String) (hf : ∀ t, f t = none) :
    ps.foldl (fun acc peer => send_message acc peer ts (f peer)) s =
      { s with outbox := s.outbox ++ ps.map (fun q => (q, ts)) } := by
  induction ps generalizing s with
  | nil => simp
  | cons p t ih =>
      rw [List.foldl_cons]
      have hp : send_message s p ts (f p) = { s with outbox := s.outbox ++ [(p, ts)] } := by
        rw [hf p]; rfl
      rw [hp, ih]
      simp

/-- A concrete running VM used for witnesses: id 0, peers [1, 2],
internal probability 1/2, logical clock 2. -/
def exState : VMState :=
  { initState 0 [1, 2] (1/2) with logical_clock := 2 }

/-! ### C1 -/

/-- C1: `process_message` with pre-event clock `c` and received timestamp `v`
sets the logical clock to exactly `max c v + 1` and (with the log file open)
appends one Receive entry whose clock snapshot is that same value. -/
theorem process_message_receive_rule (s : VMState) (v : Int)
    (hopen : s.log_file_closed = false) :
    (process_message s v).logical_clock = max s.logical_clock v + 1 ∧
    (process_message s v).log = s.log ++
      [{ event_type := "Receive", clock_snapshot := max s.logical_clock v + 1,
         queue_len := s.queue.length, details := "From Network" }] := by
  simp [process_message, log_event, hopen]

/-- C1 witness: at clock 2 receiving 5 the clock becomes 6 and the Receive
entry snapshots 6. -/
theorem process_message_receive_rule_witness :
    (process_message exState 5).logical_clock = max exState.logical_clock 5 + 1 ∧
    (process_message exState 5).log = exState.log ++
      [{ event_type := "Receive", clock_snapshot := max exState.logical_clock 5 + 1,
         queue_len := exState.queue.length, details := "From Network" }] :=
  process_message_receive_rule exState 5 rfl

/-! ### C3 -/

/-- C3: on a tick with a non-empty inbound queue, exactly the head timestamp
is popped (the rest remain queued), the receive rule is applied, one Receive
entry is written, no message is sent, and the result does not depend on the
random draw or on the send-failure oracle (no random local event happens). -/
theorem tick_nonempty_queue (s : VMState) (r r' : ℚ) (f f' : Nat → Option String)
    (v : Int) (rest : List Int) (hq : s.queue = v :: rest)
    (hopen : s.log_file_closed = false) :
    tick s r f = tick s r' f' ∧
    (tick s r f).queue = rest ∧
    (tick s r f).logical_clock = max s.logical_clock v + 1 ∧
    (tick s r f).log = s.log ++
      [{ event_type := "Receive", clock_snapshot := max s.logical_clock v + 1,
         queue_len := rest.length, details := "From Network" }] ∧
    (tick s r f).outbox = s.outbox := by
  simp [tick, hq, process_message, log_event, hopen]

/-- C3 witness: with queue [5, 9] at clock 2, one tick pops only the 5,
leaves [9], sets the clock to 6 and writes one Receive entry, identically
for two different random draws. -/
theorem tick_nonempty_queue_witness :
    tick { exState with queue := [5, 9] } 0 (fun _ => none) =
      tick { exState with queue := [5, 9] } (9/10) (fun _ => some "e") ∧
    (tick { exState with queue := [5, 9] } 0 (fun _ => none)).queue = [9] ∧
    (tick { exState with queue := [5, 9] } 0 (fun _ => none)).logical_clock =
      max { exState with queue := [5, 9] }.logical_clock 5 + 1 ∧
    (tick { exState with queue := [5, 9] } 0 (fun _ => none)).log =
      { exState with queue := [5, 9] }.log ++
      [{ event_type := "Receive",
         clock_snapshot := max { exState with queue := [5, 9] }.logical_clock 5 + 1,
         queue_len := [(9 : Int)].length, details := "From Network" }] ∧
    (tick { exState with queue := [5, 9] } 0 (fun _ => none)).outbox =
      { exState with queue := [5, 9] }.outbox :=
  tick_nonempty_queue { exState with queue := [5, 9] } 0 (9/10)
    (fun _ => none) (fun _ => some "e") 5 [9] rfl rfl

/-! ### C8 -/

/-- C8: `stop` is idempotent — a second `stop` changes nothing and writes no
log entries; after `stop` the running flag is false and the socket and log
file are closed. -/
theorem stop_idempotent (s : VMState) :
    stop (stop s) = stop s ∧
    (stop s).log = s.log ∧
    (stop s).running = false ∧
    (stop s).socket_closed = true ∧
    (stop s).log_file_closed = true := by
  simp [stop]

/-! ### C9 -/

/-- C9: once the log file is closed, `log_event` is a no-op: it returns the
state completely unchanged and raises nothing. -/
theorem log_event_after_close_noop (s : VMState) (t d : String)
    (h : s.log_file_closed = true) :
    log_event s t d = s := by
  simp [log_event, h]

/-- C9 witness: logging on a stopped VM leaves the state unchanged. -/
theorem log_event_after_close_noop_witness :
    log_event (stop exState) "Internal" "No external communication" = stop exState :=
  log_event_after_close_noop (stop exState) "Internal" "No external communication" rfl

/-! ### C10 -/

/-- C10: for every integer received value, including negative ones (which
the listener's `int` parse accepts, e.g. "-5"), `process_message` sets the
clock to `max c v + 1 ≥ c + 1`: a strict increase of at least 1, and the
clock stays non-negative whenever it was. -/
theorem process_message_strict_increase (s : VMState) (v : Int)
    (h : 0 ≤ s.logical_clock) :
    (process_message s v).logical_clock = max s.logical_clock v + 1 ∧
    s.logical_clock + 1 ≤ (process_message s v).logical_clock ∧
    0 ≤ (process_message s v).logical_clock ∧
    pythonInt "-5" = some (-5) := by
  refine ⟨by simp [process_message, log_event_clock], ?_, ?_, by decide⟩
  · simp [process_message, log_event_clock]
  · simp only [process_message, log_event_clock]
    have : s.logical_clock ≤ max s.logical_clock v := le_max_left _ _
    omega

/-- C10 witness: receiving -5 at clock 0 still advances the clock to 1. -/
theorem process_message_strict_increase_witness :
    (process_message (initState 0 [1, 2] (1/2)) (-5)).logical_clock =
      max (initState 0 [1, 2] (1/2)).logical_clock (-5) + 1 ∧
    (initState 0 [1, 2] (1/2)).logical_clock + 1 ≤
      (process_message (initState 0 [1, 2] (1/2)) (-5)).logical_clock ∧
    0 ≤ (process_message (initState 0 [1, 2] (1/2)) (-5)).logical_clock ∧
    pythonInt "-5" = some (-5) :=
  process_message_strict_increase (initState 0 [1, 2] (1/2)) (-5) (by decide)

end VMSim

namespace VMSim

/-! ### C2 -/

/-- Concrete evaluation of one tick in the send-to-all branch: `p = 1/2`,
peers `[1, 2]`, draw `9/10 ≥ p + 2(1-p)/3 = 5/6`, all sends succeeding. -/
theorem tick_sendall_eval :
    tick (initState 0 [1, 2] (1/2)) (9/10) (fun _ => none) =
      { initState 0 [1, 2] (1/2) with
        logical_clock := 1
        outbox := [(1, 1), (2, 1)]
        log := [⟨"Send All", 1, 0, "To VMs [1, 2]"⟩] } := by
  have hs : ("To VMs " ++ toString ([1, 2] : List Nat)) = "To VMs [1, 2]" := rfl
  norm_num [tick, initState, local_event, log_event, send_message, hs]

/-- C2 counterexample: in the send-to-all branch (here `r = 9/10` with
`p = 1/2`, so `r ≥ p + 2(1-p)/3`) the code logs the event type
`"Send All"`, not `"Send-All"` as the claim states. -/
theorem tick_sendall_label_cex :
    (1 : ℚ)/2 + 2 * ((1 - 1/2) / 3) ≤ 9/10 ∧
    ((tick (initState 0 [1, 2] (1/2)) (9/10) (fun _ => none)).log.map
        (fun e => e.event_type)) = ["Send All"] ∧
    "Send-All" ∉ ((tick (initState 0 [1, 2] (1/2)) (9/10) (fun _ => none)).log.map
        (fun e => e.event_type)) := by
  refine ⟨by norm_num, ?_, ?_⟩
  · rw [tick_sendall_eval]
    rfl
  · rw [tick_sendall_eval]
    decide

/-- C2 (amended: the send-to-all entry is labelled `"Send All"`, with a
space, and its details read `"To VMs <peer list>"`): on a tick with empty
queue and the log file open, with `p = internal_event_prob ∈ [0, 1)`,
`s = (1-p)/3` and all sends succeeding, the draw `r` selects: `r < p` an
Internal event (clock +1, entry "Internal"); `p ≤ r < p + s` a Send of the
post-increment clock to `peers[0]` if it exists, else a fallback Internal
entry with details "Fallback event"; `p + s ≤ r < p + 2s` the same for
`peers[1]`; and `p + 2s ≤ r` a single increment with the same new value
sent to every peer under one `"Send All"` entry. -/
theorem tick_threshold_branches (s : VMState) (r : ℚ) (fails : Nat → Option String)
    (hq : s.queue = []) (hopen : s.log_file_closed = false)
    (hf : ∀ t, fails t = none)
    (hp0 : 0 ≤ s.internal_event_prob) (hp1 : s.internal_event_prob < 1) :
    (r < s.internal_event_prob →
      tick s r fails = { s with
        logical_clock := s.logical_clock + 1
        log := s.log ++ [⟨"Internal", s.logical_clock + 1, s.queue.length,
          "No external communication"⟩] }) ∧
    (s.internal_event_prob ≤ r →
      r < s.internal_event_prob + (1 - s.internal_event_prob) / 3 →
      (∀ p0 t, s.peers = p0 :: t →
        tick s r fails = { s with
          logical_clock := s.logical_clock + 1
          outbox := s.outbox ++ [(p0, s.logical_clock + 1)]
          log := s.log ++ [⟨"Send", s.logical_clock + 1, s.queue.length,
            "To VM " ++ toString p0⟩] }) ∧
      (s.peers = [] →
        tick s r fails = { s with
          logical_clock := s.logical_clock + 1
          log := s.log ++ [⟨"Internal", s.logical_clock + 1, s.queue.length,
            "Fallback event"⟩] })) ∧
    (s.internal_event_prob + (1 - s.internal_event_prob) / 3 ≤ r →
      r < s.internal_event_prob + 2 * ((1 - s.internal_event_prob) / 3) →
      (∀ p0 p1 t, s.peers = p0 :: p1 :: t →
        tick s r fails = { s with
          logical_clock := s.logical_clock + 1
          outbox := s.outbox ++ [(p1, s.logical_clock + 1)]
          log := s.log ++ [⟨"Send", s.logical_clock + 1, s.queue.length,
            "To VM " ++ toString p1⟩] }) ∧
      (s.peers.length < 2 →
        tick s r fails = { s with
          logical_clock := s.logical_clock + 1
          log := s.log ++ [⟨"Internal", s.logical_clock + 1, s.queue.length,
            "Fallback event"⟩] })) ∧
    (s.internal_event_prob + 2 * ((1 - s.internal_event_prob) / 3) ≤ r →
      tick s r fails = { s with
        logical_clock := s.logical_clock + 1
        outbox := s.outbox ++ s.peers.map (fun q => (q, s.logical_clock + 1))
        log := s.log ++ [⟨"Send All", s.logical_clock + 1, s.queue.length,
          "To VMs " ++ toString s.peers⟩] }) := by
  have hst : 0 < (1 - s.internal_event_prob) / 3 := by linarith
  refine ⟨?_, ?_, ?_, ?_⟩
  · intro hr
    simp [tick, hq, local_event, hr, log_event, hopen]
  · intro h1 h2
    have hnr : ¬ r < s.internal_event_prob := not_lt.mpr h1
    constructor
    · intro p0 t hp
      simp [tick, hq, local_event, hnr, h2, hp, hf, send_message, log_event, hopen]
    · intro hp
      simp [tick, hq, local_event, hnr, h2, hp, log_event, hopen]
  · intro h1 h2
    have hnr : ¬ r < s.internal_event_prob := by
      refine not_lt.mpr ?_
      linarith
    have hnr2 : ¬ r < s.internal_event_prob + (1 - s.internal_event_prob) / 3 :=
      not_lt.mpr h1
    constructor
    · intro p0 p1 t hp
      simp [tick, hq, local_event, hnr, hnr2, h2, hp, hf, send_message, log_event, hopen]
    · intro hlen
      rcases hp : s.peers with _ | ⟨p0, rest⟩
      · simp [tick, hq, local_event, hnr, hnr2, h2, hp, log_event, hopen]
      · rcases rest with _ | ⟨p1, rest'⟩
        · simp [tick, hq, local_event, hnr, hnr2, h2, hp, log_event, hopen]
        · rw [hp, List.length_cons, List.length_cons] at hlen
          exact absurd hlen (by omega)
  · intro h1
    have hnr : ¬ r < s.internal_event_prob := by
      refine not_lt.mpr ?_
      linarith
    have hnr2 : ¬ r < s.internal_event_prob + (1 - s.internal_event_prob) / 3 := by
      refine not_lt.mpr ?_
      linarith
    have hnr3 : ¬ r < s.internal_event_prob + 2 * ((1 - s.internal_event_prob) / 3) :=
      not_lt.mpr h1
    have hstep : tick s r fails = log_event
        (s.peers.foldl
          (fun acc peer => send_message acc peer (s.logical_clock + 1) (fails peer))
          { s with logical_clock := s.logical_clock + 1 })
        "Send All" ("To VMs " ++ toString s.peers) := by
      simp [tick, hq, local_event, hnr, hnr2, hnr3]
    rw [hstep, foldl_send_success s.peers { s with logical_clock := s.logical_clock + 1 }
      (s.logical_clock + 1) fails hf]
    simp [log_event, hopen]

/-- C2 witness: with `p = 1/2`, peers `[1, 2]` and draw `9/10` the VM takes
the send-to-all branch, the clock goes to 1, both peers are sent 1, and one
"Send All" entry is logged. -/
theorem tick_threshold_branches_witness :
    tick (initState 0 [1, 2] (1/2)) (9/10) (fun _ => none) =
      { initState 0 [1, 2] (1/2) with
        logical_clock := 1
        outbox := [(1, 1), (2, 1)]
        log := [⟨"Send All", 1, 0, "To VMs [1, 2]"⟩] } := by
  have h := (tick_threshold_branches (initState 0 [1, 2] (1/2)) (9/10)
    (fun _ => none) rfl rfl (fun _ => rfl) (by norm_num [initState])
    (by norm_num [initState])).2.2.2 (by norm_num [initState])
  exact h.trans (h.symm.trans tick_sendall_eval)

end VMSim

namespace VMSim

/-- The clock after any local event is exactly the old clock plus 1. -/
theorem local_event_clock (s : VMState) (r : ℚ) (f : Nat → Option String) :
    (local_event s r f).logical_clock = s.logical_clock + 1 := by
  unfold local_event
  dsimp only
  split_ifs with h1 h2 h3
  · simp [log_event_clock]
  · rcases hp : s.peers with _ | ⟨p0, t⟩
    · simp [log_event_clock]
    · simp [log_event_clock, send_message_clock]
  · rcases hp : s.peers with _ | ⟨p0, _ | ⟨p1, t⟩⟩ <;>
      simp [log_event_clock, send_message_clock]
  · simp [log_event_clock, foldl_send_clock]

/-! ### C4 -/

/-- C4 counterexample: receiving value 0 at clock 0 moves the clock to 1, an
increase of 1, while `max(0, received - clock) = max(0, 0 - 0) = 0`. -/
theorem clock_increase_receive_cex :
    (initState 0 [1, 2] (1/2)).logical_clock = 0 ∧
    (process_message (initState 0 [1, 2] (1/2)) 0).logical_clock = 1 ∧
    max 0 ((0 : Int) - 0) = 0 ∧ (1 : Int) ≠ 0 + 0 := by
  refine ⟨rfl, ?_, by decide, by decide⟩
  simp [process_message, log_event_clock, initState]

/-- C4 (amended: a receive of value `v` at pre-event clock `c` increases the
clock by exactly `max 0 (v - c) + 1`, not `max 0 (v - c)`): on every tick
the clock increases by exactly 1 when the event is locally generated
(Internal, Send, Send-All or fallback), by exactly `max 0 (v - c) + 1` when
the tick processes a received value `v`, and it never decreases. -/
theorem tick_clock_increase (s : VMState) (r : ℚ) (f : Nat → Option String) :
    (s.queue = [] → (tick s r f).logical_clock = s.logical_clock + 1) ∧
    (∀ v rest, s.queue = v :: rest →
      (tick s r f).logical_clock =
        s.logical_clock + (max 0 (v - s.logical_clock) + 1)) ∧
    s.logical_clock ≤ (tick s r f).logical_clock := by
  have hrecv : ∀ v, max s.logical_clock v + 1 =
      s.logical_clock + (max 0 (v - s.logical_clock) + 1) := by
    intro v
    rcases le_total s.logical_clock v with h | h
    · rw [max_eq_right h, max_eq_right (by omega : (0 : Int) ≤ v - s.logical_clock)]
      omega
    · rw [max_eq_left h, max_eq_left (by omega : v - s.logical_clock ≤ (0 : Int))]
      omega
  refine ⟨?_, ?_, ?_⟩
  · intro hq
    simp [tick, hq, local_event_clock]
  · intro v rest hq
    simp [tick, hq, process_message, log_event_clock, hrecv v]
  · rcases hq : s.queue with _ | ⟨v, rest⟩
    · simp [tick, hq, local_event_clock]
    · simp [tick, hq, process_message, log_event_clock]
      have := le_max_left s.logical_clock v
      omega

/-- C4 witness: an empty-queue tick at clock 2 moves the clock to 3, and a
tick receiving 5 at clock 2 moves the clock to 2 + (max 0 (5-2) + 1) = 6. -/
theorem tick_clock_increase_witness :
    (tick exState 0 (fun _ => none)).logical_clock = exState.logical_clock + 1 ∧
    (tick { exState with queue := [5] } 0 (fun _ => none)).logical_clock =
      { exState with queue := [5] }.logical_clock +
        (max 0 (5 - { exState with queue := [5] }.logical_clock) + 1) :=
  ⟨(tick_clock_increase exState 0 (fun _ => none)).1 rfl,
   (tick_clock_increase { exState with queue := [5] } 0 (fun _ => none)).2.1 5 [] rfl⟩

end VMSim

namespace VMSim

/-! ### C7 -/

/-- C7 counterexample: the payload "-5" is not a non-negative integer, yet
the listener's `int` parse accepts it and enqueues -5 instead of dropping
the connection. -/
theorem server_step_nonneg_cex :
    pythonInt "-5" = some (-5) ∧
    (server_step (initState 0 [1, 2] (1/2)) "-5").queue = [(-5 : Int)] ∧
    ((-5 : Int) < 0) := by
  refine ⟨by decide, by decide, by decide⟩

/-- C7 (amended: the payload is parsed as an optionally signed decimal
integer — Python `int`, which also accepts negative values): on success the
parsed value is pushed to the back of the inbound queue; on parse failure
(or an empty read) the connection is dropped silently; in every case no log
entry is written and no state other than the queue changes. -/
theorem server_step_spec (s : VMState) (payload : String) :
    (server_step s payload).log = s.log ∧
    (server_step s payload).logical_clock = s.logical_clock ∧
    (server_step s payload).outbox = s.outbox ∧
    (server_step s payload).running = s.running ∧
    ((∃ v, pythonInt payload = some v ∧
        (server_step s payload).queue = s.queue ++ [v] ∧ payload ≠ "") ∨
      (server_step s payload = s ∧
        (payload = "" ∨ pythonInt payload = none))) := by
  unfold server_step
  split_ifs with he
  · simp [he]
  · rcases hp : pythonInt payload with _ | v
    · simp [hp, he]
    · simp [hp, he]

/-! ### Invariant machinery for C5 -/

theorem inv_log_event (s : VMState) (t d : String) (h : Inv s) :
    Inv (log_event s t d) := by
  unfold log_event
  split_ifs with hc
  · exact h
  · obtain ⟨h0, hchain, hub⟩ := h
    refine ⟨h0, ?_, ?_⟩
    · simp only [snapshots, List.map_append, List.map_cons, List.map_nil]
      rw [List.chain'_append]
      refine ⟨hchain, List.chain'_singleton _, ?_⟩
      intro x hx y hy
      simp only [List.head?_cons, Option.mem_def, Option.some.injEq] at hy
      subst hy
      have hx' : x ∈ snapshots s := List.mem_of_mem_getLast? hx
      obtain ⟨e, he, rfl⟩ := List.mem_map.mp hx'
      exact hub e he
    · intro e he
      rcases List.mem_append.mp he with h1 | h1
      · exact hub e h1
      · simp only [List.mem_singleton] at h1
        subst h1
        exact le_refl _

theorem inv_set_clock (s : VMState) (c : Int) (h : Inv s)
    (hc : s.logical_clock ≤ c) : Inv { s with logical_clock := c } := by
  obtain ⟨h0, hchain, hub⟩ := h
  exact ⟨le_trans h0 hc, hchain, fun e he => le_trans (hub e he) hc⟩

theorem inv_send_message (s : VMState) (t : Nat) (ts : Int) (fl : Option String)
    (h : Inv s) : Inv (send_message s t ts fl) := by
  cases fl with
  | none => exact h
  | some e => exact inv_log_event _ _ _ h

theorem inv_foldl_send (ps : List Nat) (s : VMState) (ts : Int)
    (f : Nat → Option String) (h : Inv s) :
    Inv (ps.foldl (fun acc peer => send_message acc peer ts (f peer)) s) := by
  induction ps generalizing s with
  | nil => exact h
  | cons p t ih =>
      rw [List.foldl_cons]
      exact ih _ (inv_send_message _ _ _ _ h)

theorem inv_local_event (s : VMState) (r : ℚ) (f : Nat → Option String)
    (h : Inv s) : Inv (local_event s r f) := by
  have hbump : Inv { s with logical_clock := s.logical_clock + 1 } :=
    inv_set_clock s _ h (by omega)
  unfold local_event
  dsimp only
  split_ifs with h1 h2 h3
  · exact inv_log_event _ _ _ hbump
  · rcases hp : s.peers with _ | ⟨p0, t⟩
    · exact inv_log_event _ _ _ hbump
    · exact inv_log_event _ _ _ (inv_send_message _ _ _ _ hbump)
  · rcases hp : s.peers with _ | ⟨p0, _ | ⟨p1, t⟩⟩
    · exact inv_log_event _ _ _ hbump
    · exact inv_log_event _ _ _ hbump
    · exact inv_log_event _ _ _ (inv_send_message _ _ _ _ hbump)
  · exact inv_log_event _ _ _ (inv_foldl_send _ _ _ _ hbump)

theorem inv_process_message (s : VMState) (v : Int) (h : Inv s) :
    Inv (process_message s v) := by
  refine inv_log_event _ _ _ (inv_set_clock s _ h ?_)
  have := le_max_left s.logical_clock v
  omega

theorem inv_apply (s : VMState) (a : Action) (h : Inv s) :
    Inv (applyAction s a) := by
  cases a with
  | tick r f =>
      show Inv (tick s r f)
      rcases hq : s.queue with _ | ⟨v, rest⟩
      · rw [tick, hq]
        exact inv_local_event _ _ _ h
      · rw [tick, hq]
        exact inv_process_message _ _ h
  | recv payload =>
      show Inv (server_step s payload)
      unfold server_step
      split_ifs
      · exact h
      · rcases pythonInt payload with _ | v
        · exact h
        · exact h
  | halt => exact h

theorem apply_clock_mono (s : VMState) (a : Action) :
    s.logical_clock ≤ (applyAction s a).logical_clock := by
  cases a with
  | tick r f =>
      show s.logical_clock ≤ (tick s r f).logical_clock
      rcases hq : s.queue with _ | ⟨v, rest⟩
      · rw [tick, hq, local_event_clock]
        omega
      · rw [tick, hq]
        simp only [process_message, log_event_clock]
        have := le_max_left s.logical_clock v
        omega
  | recv payload =>
      show s.logical_clock ≤ (server_step s payload).logical_clock
      unfold server_step
      split_ifs
      · exact le_refl _
      · rcases pythonInt payload with _ | v <;> exact le_refl _
  | halt => exact le_refl _

/-! ### C5 -/

/-- C5: the logical clock is non-negative, every state-mutating operation
(tick, inbound message, stop) keeps the clock/log invariant and never
decreases the clock, and along any run from a fresh VM the invariant holds:
the clock stays a non-negative integer and the clock snapshots across the
log are non-decreasing. -/
theorem clock_invariant_preserved :
    (∀ (i : Nat) (ps : List Nat) (pr : ℚ), Inv (initState i ps pr)) ∧
    (∀ (s : VMState) (a : Action), Inv s →
        Inv (applyAction s a) ∧ s.logical_clock ≤ (applyAction s a).logical_clock) ∧
    (∀ (i : Nat) (ps : List Nat) (pr : ℚ) (acts : List Action),
        Inv (runActions (initState i ps pr) acts)) := by
  have hinit : ∀ (i : Nat) (ps : List Nat) (pr : ℚ), Inv (initState i ps pr) := by
    intro i ps pr
    refine ⟨le_refl _, ?_, ?_⟩
    · simp [snapshots, initState]
    · simp [initState]
  refine ⟨hinit, fun s a h => ⟨inv_apply s a h, apply_clock_mono s a⟩, ?_⟩
  intro i ps pr acts
  have : ∀ (s : VMState), Inv s → Inv (runActions s acts) := by
    induction acts with
    | nil => exact fun s h => h
    | cons a t ih =>
        intro s h
        exact ih _ (inv_apply s a h)
  exact this _ (hinit i ps pr)

/-- C5 witness: the invariant holds for the concrete running VM `exState`
and is preserved (with a non-decreasing clock) by a `stop`. -/
theorem clock_invariant_preserved_witness :
    Inv (applyAction exState Action.halt) ∧
    exState.logical_clock ≤ (applyAction exState Action.halt).logical_clock := by
  have hInv : Inv exState := by
    refine ⟨by norm_num [exState, initState], ?_, ?_⟩
    · simp [snapshots, exState, initState]
    · simp [exState, initState]
  exact clock_invariant_preserved.2.1 exState Action.halt hInv

end VMSim

namespace VMSim

/-! ### Event-type machinery for C6 -/

theorem types_log_event (s : VMState) (t d : String)
    (ht : t ∈ writtenEventTypes) (h : TypesOk s) : TypesOk (log_event s t d) := by
  unfold log_event
  split_ifs with hc
  · exact h
  · intro e he
    rcases List.mem_append.mp he with h1 | h1
    · exact h e h1
    · simp only [List.mem_singleton] at h1
      subst h1
      exact ht

theorem types_send_message (s : VMState) (t : Nat) (ts : Int) (fl : Option String)
    (h : TypesOk s) : TypesOk (send_message s t ts fl) := by
  cases fl with
  | none => exact h
  | some e => exact types_log_event _ _ _ (by simp [writtenEventTypes]) h

theorem types_foldl_send (ps : List Nat) (s : VMState) (ts : Int)
    (f : Nat → Option String) (h : TypesOk s) :
    TypesOk (ps.foldl (fun acc peer => send_message acc peer ts (f peer)) s) := by
  induction ps generalizing s with
  | nil => exact h
  | cons p t ih =>
      rw [List.foldl_cons]
      exact ih _ (types_send_message _ _ _ _ h)

theorem types_set_clock (s : VMState) (c : Int) (h : TypesOk s) :
    TypesOk { s with logical_clock := c } := h

theorem types_local_event (s : VMState) (r : ℚ) (f : Nat → Option String)
    (h : TypesOk s) : TypesOk (local_event s r f) := by
  have hbump : TypesOk { s with logical_clock := s.logical_clock + 1 } := h
  unfold local_event
  dsimp only
  split_ifs with h1 h2 h3
  · exact types_log_event _ _ _ (by simp [writtenEventTypes]) hbump
  · rcases hp : s.peers with _ | ⟨p0, t⟩
    · exact types_log_event _ _ _ (by simp [writtenEventTypes]) hbump
    · exact types_log_event _ _ _ (by simp [writtenEventTypes])
        (types_send_message _ _ _ _ hbump)
  · rcases hp : s.peers with _ | ⟨p0, _ | ⟨p1, t⟩⟩
    · exact types_log_event _ _ _ (by simp [writtenEventTypes]) hbump
    · exact types_log_event _ _ _ (by simp [writtenEventTypes]) hbump
    · exact types_log_event _ _ _ (by simp [writtenEventTypes])
        (types_send_message _ _ _ _ hbump)
  · exact types_log_event _ _ _ (by simp [writtenEventTypes])
      (types_foldl_send _ _ _ _ hbump)

theorem types_apply (s : VMState) (a : Action) (h : TypesOk s) :
    TypesOk (applyAction s a) := by
  cases a with
  | tick r f =>
      show TypesOk (tick s r f)
      rcases hq : s.queue with _ | ⟨v, rest⟩
      · rw [tick, hq]
        exact types_local_event _ _ _ h
      · rw [tick, hq]
        exact types_log_event _ _ _ (by simp [writtenEventTypes]) h
  | recv payload =>
      show TypesOk (server_step s payload)
      unfold server_step
      split_ifs
      · exact h
      · rcases pythonInt payload with _ | v
        · exact h
        · exact h
  | halt => exact h

/-! ### C6 -/

/-- C6 counterexample: a send-to-all tick writes the event type
`"Send All"`, which is not in the claimed set
{Internal, Receive, Send, Send-All, Send-Error}. -/
theorem log_event_type_set_cex :
    ((tick (initState 0 [1, 2] (1/2)) (9/10) (fun _ => none)).log.map
        (fun e => e.event_type) = ["Send All"]) ∧
    "Send All" ∉ (["Internal", "Receive", "Send", "Send-All", "Send-Error"] :
      List String) := by
  refine ⟨?_, by decide⟩
  rw [tick_sendall_eval]
  rfl

/-- C6 (amended: the event types the code writes are
{Internal, Receive, Send, "Send All", "Send Error"}, with spaces rather
than hyphens in the last two): every reachable state's log contains only
those event types, and every written line is rendered in the exact
tab-separated format
elapsed TAB event_type TAB "Logical Clock: " int TAB "Queue Length: " int
TAB details newline. -/
theorem log_line_format_and_types :
    (∀ (i : Nat) (ps : List Nat) (pr : ℚ) (acts : List Action),
        TypesOk (runActions (initState i ps pr) acts)) ∧
    (∀ (elapsed : String) (e : LogEntry),
        render_log_line elapsed e = elapsed ++ "\t" ++ e.event_type ++
          "\tLogical Clock: " ++ toString e.clock_snapshot ++
          "\tQueue Length: " ++ toString e.queue_len ++ "\t" ++
          e.details ++ "\n") := by
  constructor
  · intro i ps pr acts
    have hinit : TypesOk (initState i ps pr) := by
      intro e he
      simp [initState] at he
    have : ∀ (s : VMState), TypesOk s → TypesOk (runActions s acts) := by
      induction acts with
      | nil => exact fun s h => h
      | cons a t ih =>
          intro s h
          exact ih _ (types_apply s a h)
    exact this _ hinit
  · intro elapsed e
    rfl

end VMSim
